import Mathlib

/-!
Shallow embedding of the streaming-summary core of the `tldr` browser
extension:

* `parseStreamingJSON` — the incremental structured-output stream
  reconciler of `src/modules/prompt-summarizer.js` (strict parse of a
  complete array / repair parse with a synthetic `]` / regex fallback);
* `splitIntoChunks` — the recursive-halving text segmenter of
  `src/modules/text-extractor.js`;
* the checkpoint-pause rule of the multi-segment loop in
  `handlePromptSummarization`.

Strings are modelled as `List Char` (`S` converts a literal).  JavaScript's
`JSON.parse` is modelled by a fuel-based recursive-descent parser over the
JSON grammar; fallible parsing returns `Option`.  The fuel passed by
`jsonParse` (`2 * length + 2`) strictly dominates the recursion depth plus
the number of sequential parsing steps, each of which consumes input.
-/

/-- `List Char` view of a string literal. -/
def S (s : String) : List Char := s.data

/-- JSON values as produced by `JSON.parse`.  Numbers keep their source
lexeme: none of the modelled code inspects numeric magnitude. -/
inductive Json where
  | null : Json
  | bool (b : Bool) : Json
  | num (lexeme : List Char) : Json
  | str (s : List Char) : Json
  | arr (elements : List Json) : Json
  | obj (fields : List (List Char × Json)) : Json

/-- Whitespace skipped by `JSON.parse` between tokens: space, tab,
line feed, carriage return. -/
def jsonWs (c : Char) : Bool :=
  c == ' ' || c == '\t' || c == '\n' || c == '\r'

/-- Drop leading JSON whitespace. -/
def skipJsonWs (cs : List Char) : List Char := cs.dropWhile jsonWs

/-- Value of a hexadecimal digit, if any. -/
def hexVal (c : Char) : Option Nat :=
  if '0' ≤ c ∧ c ≤ '9' then some (c.toNat - '0'.toNat)
  else if 'a' ≤ c ∧ c ≤ 'f' then some (c.toNat - 'a'.toNat + 10)
  else if 'A' ≤ c ∧ c ≤ 'F' then some (c.toNat - 'A'.toNat + 10)
  else none

/-- Body of a JSON string literal, the opening `"` already consumed.
Returns the decoded characters and the input after the closing `"`.
Control characters below `U+0020` must be escaped; the eight simple
escapes and `\uXXXX` are recognised. -/
def parseJString : List Char → Option (List Char × List Char)
  | [] => none
  | '"' :: rest => some ([], rest)
  | '\\' :: esc =>
    match esc with
    | '"' :: rest => (parseJString rest).map (fun p => ('"' :: p.1, p.2))
    | '\\' :: rest => (parseJString rest).map (fun p => ('\\' :: p.1, p.2))
    | '/' :: rest => (parseJString rest).map (fun p => ('/' :: p.1, p.2))
    | 'b' :: rest => (parseJString rest).map (fun p => ('\x08' :: p.1, p.2))
    | 'f' :: rest => (parseJString rest).map (fun p => ('\x0c' :: p.1, p.2))
    | 'n' :: rest => (parseJString rest).map (fun p => ('\n' :: p.1, p.2))
    | 'r' :: rest => (parseJString rest).map (fun p => ('\r' :: p.1, p.2))
    | 't' :: rest => (parseJString rest).map (fun p => ('\t' :: p.1, p.2))
    | 'u' :: h1 :: h2 :: h3 :: h4 :: rest =>
      match hexVal h1, hexVal h2, hexVal h3, hexVal h4 with
      | some a, some b, some c, some d =>
        (parseJString rest).map
          (fun p => (Char.ofNat (((a * 16 + b) * 16 + c) * 16 + d) :: p.1, p.2))
      | _, _, _, _ => none
    | _ => none
  | c :: rest =>
    if c.toNat < 0x20 then none
    else (parseJString rest).map (fun p => (c :: p.1, p.2))

/-- JSON number starting at the input head (`-?int frac? exp?`), returning
its lexeme and the rest of the input. -/
def parseJNumber (cs : List Char) : Option (List Char × List Char) :=
  let signed : List Char × List Char :=
    match cs with
    | '-' :: rest => (['-'], rest)
    | _ => ([], cs)
  let intPart : Option (List Char × List Char) :=
    match signed.2 with
    | '0' :: rest => some (['0'], rest)
    | c :: _ =>
      if '1' ≤ c ∧ c ≤ '9' then
        some (signed.2.takeWhile Char.isDigit, signed.2.dropWhile Char.isDigit)
      else none
    | [] => none
  match intPart with
  | none => none
  | some (ip, afterInt) =>
    let fracPart : Option (List Char × List Char) :=
      match afterInt with
      | '.' :: rest =>
        let ds := rest.takeWhile Char.isDigit
        if ds = [] then none else some ('.' :: ds, rest.dropWhile Char.isDigit)
      | _ => some ([], afterInt)
    match fracPart with
    | none => none
    | some (fp, afterFrac) =>
      let expPart : Option (List Char × List Char) :=
        match afterFrac with
        | e :: rest =>
          if e = 'e' ∨ e = 'E' then
            let signedExp : List Char × List Char :=
              match rest with
              | '+' :: r2 => (['+'], r2)
              | '-' :: r2 => (['-'], r2)
              | _ => ([], rest)
            let ds := signedExp.2.takeWhile Char.isDigit
            if ds = [] then none
            else some (e :: signedExp.1 ++ ds, signedExp.2.dropWhile Char.isDigit)
          else some ([], afterFrac)
        | [] => some ([], afterFrac)
      match expPart with
      | none => none
      | some (ep, afterExp) => some (signed.1 ++ ip ++ fp ++ ep, afterExp)

mutual

/-- One JSON value (leading whitespace allowed), fuel-bounded. -/
def parseJValue : Nat → List Char → Option (Json × List Char)
  | 0, _ => none
  | Nat.succ fuel, cs =>
    match skipJsonWs cs with
    | [] => none
    | '{' :: rest =>
      match skipJsonWs rest with
      | '}' :: rest2 => some (Json.obj [], rest2)
      | _ => parseJMembers fuel [] rest
    | '[' :: rest =>
      match skipJsonWs rest with
      | ']' :: rest2 => some (Json.arr [], rest2)
      | _ => parseJItems fuel [] rest
    | '"' :: rest => (parseJString rest).map (fun p => (Json.str p.1, p.2))
    | 't' :: 'r' :: 'u' :: 'e' :: rest => some (Json.bool true, rest)
    | 'f' :: 'a' :: 'l' :: 's' :: 'e' :: rest => some (Json.bool false, rest)
    | 'n' :: 'u' :: 'l' :: 'l' :: rest => some (Json.null, rest)
    | c :: rest =>
      if c = '-' ∨ c.isDigit then
        (parseJNumber (c :: rest)).map (fun p => (Json.num p.1, p.2))
      else none

/-- Array elements after `[` (at least one element pending), fuel-bounded. -/
def parseJItems : Nat → List Json → List Char → Option (Json × List Char)
  | 0, _, _ => none
  | Nat.succ fuel, acc, cs =>
    match parseJValue fuel cs with
    | none => none
    | some (v, rest) =>
      match skipJsonWs rest with
      | ',' :: rest2 => parseJItems fuel (acc ++ [v]) rest2
      | ']' :: rest2 => some (Json.arr (acc ++ [v]), rest2)
      | _ => none

/-- Object members after `{` (at least one member pending), fuel-bounded. -/
def parseJMembers : Nat → List (List Char × Json) → List Char →
    Option (Json × List Char)
  | 0, _, _ => none
  | Nat.succ fuel, acc, cs =>
    match skipJsonWs cs with
    | '"' :: rest =>
      match parseJString rest with
      | none => none
      | some (key, rest2) =>
        match skipJsonWs rest2 with
        | ':' :: rest3 =>
          match parseJValue fuel rest3 with
          | none => none
          | some (v, rest4) =>
            match skipJsonWs rest4 with
            | ',' :: rest5 => parseJMembers fuel (acc ++ [(key, v)]) rest5
            | '}' :: rest5 => some (Json.obj (acc ++ [(key, v)]), rest5)
            | _ => none
        | _ => none
    | _ => none

end

/-- Model of `JSON.parse`: parse one value and require only whitespace to
remain; any failure (or surplus input) is `none`, the thrown-`SyntaxError`
case of the JavaScript original. -/
def jsonParse (cs : List Char) : Option Json :=
  match parseJValue (2 * cs.length + 2) cs with
  | some (v, rest) => if skipJsonWs rest = [] then some v else none
  | none => none

/-- The JavaScript whitespace class: the characters matched by the regex
class `\s` and removed by `String.prototype.trim` (`WhiteSpace` together
with the line terminators). -/
def jsWs (c : Char) : Bool :=
  c == ' ' || c == '\t' || c == '\n' || c == '\x0b' || c == '\x0c' ||
  c == '\r' || c == '\u00A0' || c == '\u1680' ||
  (0x2000 ≤ c.toNat && c.toNat ≤ 0x200A) ||
  c == '\u2028' || c == '\u2029' || c == '\u202F' || c == '\u205F' ||
  c == '\u3000' || c == '\uFEFF'

/-- `String.prototype.trim`: drop JavaScript whitespace at both ends. -/
def jsTrim (cs : List Char) : List Char :=
  ((cs.dropWhile jsWs).reverse.dropWhile jsWs).reverse

/-- `text.replace(/,?\s*$/, '')`: the leftmost match of `,?\s*$` is the
maximal whitespace suffix together with one comma immediately before it,
when present; that suffix is removed. -/
def stripTrailingCommaWs (cs : List Char) : List Char :=
  let r := cs.reverse.dropWhile jsWs
  (match r with
   | ',' :: rest => rest
   | _ => r).reverse

/-- The key of the first field of a summary item. -/
def keyText : List Char := S "summary_item_text"

/-- The key of the second field of a summary item. -/
def keyRef : List Char := S "origin_text_reference"

/-- The quoted form of a field key as it must appear in the buffer. -/
def quoted (key : List Char) : List Char := '"' :: key ++ ['"']

/-- Consume an exact literal at the head of the input. -/
def expectLit (lit cs : List Char) : Option (List Char) :=
  if lit.isPrefixOf cs then some (cs.drop lit.length) else none

/-- Consume one expected character at the head of the input. -/
def expectChar (c : Char) : List Char → Option (List Char)
  | x :: rest => if x = c then some rest else none
  | [] => none

/-- `\s*` of the JavaScript regexes. -/
def skipJsWs (cs : List Char) : List Char := cs.dropWhile jsWs

/-- `"([^"]+)"`: a non-empty run of non-quote characters enclosed in
quotes.  Returns the capture and the input after the closing quote. -/
def captureQuoted1 (cs : List Char) : Option (List Char × List Char) :=
  match expectChar '"' cs with
  | none => none
  | some rest =>
    let cap := rest.takeWhile (fun c => c ≠ '"')
    if cap = [] then none
    else
      match expectChar '"' (rest.dropWhile (fun c => c ≠ '"')) with
      | none => none
      | some rest2 => some (cap, rest2)

/-- Match the complete-object regex of the fallback tier,
`\x7b\s*"summary_item_text"\s*:\s*"([^"]+)"\s*,\s*"origin_text_reference"\s*:\s*"([^"]+)"\s*\x7d`,
anchored at the head of the input.  Returns both captures and the input
after the match. -/
def matchCompleteAt (cs : List Char) : Option ((List Char × List Char) × List Char) :=
  match expectChar '\x7b' cs with
  | none => none
  | some r1 =>
    match expectLit (quoted keyText) (skipJsWs r1) with
    | none => none
    | some r2 =>
      match expectChar ':' (skipJsWs r2) with
      | none => none
      | some r3 =>
        match captureQuoted1 (skipJsWs r3) with
        | none => none
        | some (cap1, r4) =>
          match expectChar ',' (skipJsWs r4) with
          | none => none
          | some r5 =>
            match expectLit (quoted keyRef) (skipJsWs r5) with
            | none => none
            | some r6 =>
              match expectChar ':' (skipJsWs r6) with
              | none => none
              | some r7 =>
                match captureQuoted1 (skipJsWs r7) with
                | none => none
                | some (cap2, r8) =>
                  match expectChar '\x7d' (skipJsWs r8) with
                  | none => none
                  | some r9 => some ((cap1, cap2), r9)

/-- The `while ((match = completeObjectRegex.exec(text)) !== null)` loop:
successive leftmost matches, resuming after each match.  Every step
consumes input (a match begins with a brace), so fuel `length + 1`
exhausts the buffer. -/
def scanCompleteF : Nat → List Char → List (List Char × List Char)
  | 0, _ => []
  | Nat.succ fuel, cs =>
    match matchCompleteAt cs with
    | some (caps, rest) => caps :: scanCompleteF fuel rest
    | none =>
      match cs with
      | [] => []
      | _ :: t => scanCompleteF fuel t

/-- All matches of the complete-object regex, in order of appearance. -/
def scanComplete (cs : List Char) : List (List Char × List Char) :=
  scanCompleteF (cs.length + 1) cs

/-- Match `\x7b\s*"summary_item_text"\s*:\s*"([^"]*)` anchored at the head
of the input, returning the (possibly empty) capture. -/
def matchOpenAt (cs : List Char) : Option (List Char) :=
  match expectChar '\x7b' cs with
  | none => none
  | some r1 =>
    match expectLit (quoted keyText) (skipJsWs r1) with
    | none => none
    | some r2 =>
      match expectChar ':' (skipJsWs r2) with
      | none => none
      | some r3 =>
        match expectChar '"' (skipJsWs r3) with
        | none => none
        | some r4 => some (r4.takeWhile (fun c => c ≠ '"'))

/-- `text.match(/\x7b\s*"summary_item_text"\s*:\s*"([^"]*)/)`: the capture
of the leftmost match, if any. -/
def findOpenCapture : List Char → Option (List Char)
  | [] => none
  | c :: rest =>
    match matchOpenAt (c :: rest) with
    | some cap => some cap
    | none => findOpenCapture rest

/-- The object literal `\x7b summary_item_text: s, origin_text_reference: r \x7d`
built by the regex fallback. -/
def mkItem (s r : List Char) : Json :=
  Json.obj [(keyText, Json.str s), (keyRef, Json.str r)]

/-- Result of one reconciliation call: the finalized items and the at most
one in-flight item. -/
structure ReconcileResult where
  completeItems : List Json
  partialItem : Option Json

/-- Regex fallback tier of `parseStreamingJSON` (lines 283–309): every
complete-object match except the last is finalized, the last is the
in-flight item; with no complete match, a non-empty open first-field
capture becomes the in-flight item with an empty second field. -/
def regexFallback (text : List Char) : ReconcileResult :=
  let allMatches := scanComplete text
  if allMatches = [] then
    match findOpenCapture text with
    | some cap =>
      if cap = [] then ⟨[], none⟩
      else ⟨[], some (mkItem cap [])⟩
    | none => ⟨[], none⟩
  else
    ⟨(allMatches.dropLast).map (fun p => mkItem p.1 p.2),
     (allMatches.getLast?).map (fun p => mkItem p.1 p.2)⟩

/-- The text handed to `JSON.parse` by the strict/repair tier: the trimmed
buffer itself when it already ends with `]`, otherwise the trimmed buffer
with `,?\s*$` stripped and a synthetic `]` appended. -/
def reconcilerParseTarget (text : List Char) : List Char :=
  let t := jsTrim text
  if t.getLast? = some ']' then t else stripTrailingCommaWs t ++ [']']

/-- `parseStreamingJSON` of `src/modules/prompt-summarizer.js` (lines
252–310): strict parse when the trimmed buffer ends with `]`, repair
parse with a synthetic `]` otherwise, and the regex fallback when
`JSON.parse` throws. -/
def parseStreamingJSON (text : List Char) : ReconcileResult :=
  let t := jsTrim text
  let isComplete := t.getLast? = some ']'
  match jsonParse (reconcilerParseTarget text) with
  | some (Json.arr items) =>
    if isComplete then ⟨items, none⟩
    else if items.isEmpty then ⟨[], none⟩
    else ⟨items.dropLast, items.getLast?⟩
  | some _ => ⟨[], none⟩
  | none => regexFallback text

/-- The merge step of the `chunk` handler in `handlePromptSummarization`
(lines 143–147): when the reconciler reports more finalized items than
`lastCompleteCount`, exactly the surplus is appended to the running
collection. -/
def mergeStep (allKeyPoints : List Json) (lastCompleteCount : Nat)
    (completeItems : List Json) : List Json × Nat :=
  if lastCompleteCount < completeItems.length then
    (allKeyPoints ++ completeItems.drop lastCompleteCount, completeItems.length)
  else
    (allKeyPoints, lastCompleteCount)

/-- `splitIntoChunks` of `src/modules/text-extractor.js`, fuel-bounded: the
JavaScript function recurses on the two halves of the text with no
validation of `maxChunkSize`, so for `maxChunkSize ≤ 0` the recursion can
fail to make progress; `none` models that non-terminating (stack
overflowing) recursion. -/
def splitIntoChunksF : Nat → List Char → Int → Option (List (List Char))
  | 0, _, _ => none
  | Nat.succ fuel, text, maxChunkSize =>
    if (text.length : Int) ≤ maxChunkSize then
      some [text]
    else
      let midpoint := text.length / 2
      match splitIntoChunksF fuel (text.take midpoint) maxChunkSize,
            splitIntoChunksF fuel (text.drop midpoint) maxChunkSize with
      | some a, some b => some (a ++ b)
      | _, _ => none

/-- `splitIntoChunks text maxChunkSize` with fuel `length + 1`, which the
lemmas below show suffices whenever `1 ≤ maxChunkSize`. -/
def splitIntoChunks (text : List Char) (maxChunkSize : Int) :
    Option (List (List Char)) :=
  splitIntoChunksF (text.length + 1) text maxChunkSize

/-- The checkpoint pauses of the segment loop in
`handlePromptSummarization` (lines 91–101): before processing chunk `i`
the loop pauses when `i > 0 && i % 5 === 0 && i < totalChunks`, reporting
`totalChunks - i` remaining chunks.  Listed as (index, remaining) pairs in
loop order. -/
def checkpointPauses (totalChunks : Nat) : List (Nat × Nat) :=
  (List.range totalChunks).filterMap fun i =>
    if 0 < i ∧ i % 5 = 0 ∧ i < totalChunks then
      some (i, totalChunks - i)
    else none

/-- A summary item of the target shape: exactly the two required string
fields, in the fixed order of the JSON schema. -/
def validSummaryItem : Json → Bool
  | Json.obj [(k1, Json.str _), (k2, Json.str _)] => k1 == keyText && k2 == keyRef
  | _ => false

/-- A buffer whose repair parse fails (its last object is mid-string) but
whose prefix holds one complete two-field object. -/
def sampleFallbackBuffer : List Char :=
  S "[\x7b\"summary_item_text\":\"a\",\"origin_text_reference\":\"b\"\x7d,\x7b\"summary_item_text\":\"c"

/-- With `1 ≤ maxChunkSize` and fuel above the text length, the recursion
of `splitIntoChunksF` terminates and its chunks concatenate to the input,
are bounded by `maxChunkSize`, and (for non-empty input) are non-empty. -/
theorem splitIntoChunksF_spec (fuel : Nat) :
    ∀ (text : List Char) (m : Int), 1 ≤ m → text.length < fuel →
    ∃ cs, splitIntoChunksF fuel text m = some cs ∧ cs.flatten = text ∧
      (∀ c ∈ cs, (c.length : Int) ≤ m) ∧ (text ≠ [] → ∀ c ∈ cs, c ≠ []) := by
  induction fuel with
  | zero => intro text m _ hlt; omega
  | succ fuel ih =>
    intro text m hm hlt
    by_cases hle : (text.length : Int) ≤ m
    · refine ⟨[text], by simp [splitIntoChunksF, hle], by simp, ?_, ?_⟩
      · intro c hc
        simp only [List.mem_singleton] at hc
        simpa [hc] using hle
      · intro hne c hc
        simp only [List.mem_singleton] at hc
        simpa [hc] using hne
    · have hlen2 : 2 ≤ text.length := by
        have : (1 : Int) < (text.length : Int) := lt_of_le_of_lt hm (lt_of_not_ge hle)
        exact_mod_cast this
      set mid := text.length / 2 with hmid
      have hmid1 : 1 ≤ mid := by omega
      have hmidlt : mid < text.length := by omega
      have hTake : (text.take mid).length = mid := by
        simp [List.length_take, Nat.min_eq_left (le_of_lt hmidlt)]
      have hDrop : (text.drop mid).length = text.length - mid := by
        simp [List.length_drop]
      obtain ⟨cs1, he1, hj1, hb1, hn1⟩ :=
        ih (text.take mid) m hm (by omega)
      obtain ⟨cs2, he2, hj2, hb2, hn2⟩ :=
        ih (text.drop mid) m hm (by omega)
      refine ⟨cs1 ++ cs2, ?_, ?_, ?_, ?_⟩
      · simp only [splitIntoChunksF, hle, if_neg (by exact hle)]
        rw [← hmid, he1, he2]
        simp
      · simp [hj1, hj2]
      · intro c hc
        rcases List.mem_append.mp hc with h | h
        · exact hb1 c h
        · exact hb2 c h
      · intro _ c hc
        have htne : text.take mid ≠ [] := by
          intro h0
          have := congrArg List.length h0
          simp [hTake] at this
          omega
        have hdne : text.drop mid ≠ [] := by
          intro h0
          have := congrArg List.length h0
          simp [hDrop] at this
          omega
        rcases List.mem_append.mp hc with h | h
        · exact hn1 htne c h
        · exact hn2 hdne c h

/-- For non-positive `maxChunkSize` the recursion of `splitIntoChunks`
makes no progress (unless both the size is zero and the text is empty),
and no amount of fuel completes it: the JavaScript call never returns. -/
theorem splitIntoChunksF_no_progress :
    ∀ (fuel : Nat) (text : List Char) (m : Int), m ≤ 0 →
    (m < 0 ∨ text ≠ []) → splitIntoChunksF fuel text m = none := by
  intro fuel
  induction fuel with
  | zero => intro text m _ _; rfl
  | succ fuel ih =>
    intro text m hm hbad
    have hgt : ¬ ((text.length : Int) ≤ m) := by
      rcases hbad with h | h
      · have : (0 : Int) ≤ (text.length : Int) := by positivity
        omega
      · have h1 : 1 ≤ text.length := List.length_pos.mpr h
        have : (1 : Int) ≤ (text.length : Int) := by exact_mod_cast h1
        omega
    have hbad2 : m < 0 ∨ text.drop (text.length / 2) ≠ [] := by
      rcases hbad with h | h
      · exact Or.inl h
      · refine Or.inr ?_
        intro h0
        have h1 : 1 ≤ text.length := List.length_pos.mpr h
        have := congrArg List.length h0
        simp [List.length_drop] at this
        omega
    have h2 := ih (text.drop (text.length / 2)) m hm hbad2
    simp only [splitIntoChunksF, if_neg hgt, h2]
    rcases splitIntoChunksF fuel (text.take (text.length / 2)) m with _ | cs <;> rfl

/-- C3 — Segmenter round-trip: for every string and every positive
`maxChunkSize`, `splitIntoChunks` returns chunks that concatenate to the
original string exactly, every chunk of length at most `maxChunkSize`. -/
theorem C3_segmenter_roundtrip (text : List Char) (m : Int) (hm : 1 ≤ m) :
    ∃ chunks, splitIntoChunks text m = some chunks ∧
      chunks.flatten = text ∧ ∀ c ∈ chunks, (c.length : Int) ≤ m := by
  obtain ⟨cs, he, hj, hb, _⟩ :=
    splitIntoChunksF_spec (text.length + 1) text m hm (Nat.lt_succ_self _)
  exact ⟨cs, he, hj, hb⟩

/-- Witness for C3 at `text = "abc"`, `maxChunkSize = 2`. -/
theorem C3_witness :
    (1 : Int) ≤ 2 ∧
    ∃ chunks, splitIntoChunks (S "abc") 2 = some chunks ∧
      chunks.flatten = S "abc" ∧ ∀ c ∈ chunks, (c.length : Int) ≤ 2 :=
  ⟨by norm_num, C3_segmenter_roundtrip (S "abc") 2 (by norm_num)⟩

/-- C7 — the code performs no input validation of `maxChunkSize`: with
`maxChunkSize = 0` the call on a non-empty text recurses forever (no fuel
completes it, the JavaScript call overflows the stack), while the call on
the empty text returns the chunk list `[""]`; neither is an
input-validation error. -/
theorem C7_no_validation :
    (∀ fuel, splitIntoChunksF fuel (S "a") 0 = none) ∧
    splitIntoChunks [] 0 = some [[]] :=
  ⟨fun fuel =>
    splitIntoChunksF_no_progress fuel (S "a") 0 (le_refl 0)
      (Or.inr (by simp [S])), rfl⟩

/-- C8 counterexample — on the empty text with a positive `maxChunkSize`
the returned single chunk is the empty string. -/
theorem C8_counterexample :
    splitIntoChunks [] 1 = some [[]] ∧ ¬ (∀ c ∈ [([] : List Char)], c ≠ []) :=
  ⟨rfl, by simp⟩

/-- C8 amended — for every NON-EMPTY text and positive `maxChunkSize` no
returned chunk is empty, and whenever the text length is at most
`maxChunkSize` the result is the single chunk equal to the whole text. -/
theorem C8_nonempty_chunks (text : List Char) (m : Int) (hm : 1 ≤ m)
    (hne : text ≠ []) :
    (∃ chunks, splitIntoChunks text m = some chunks ∧ ∀ c ∈ chunks, c ≠ []) ∧
    ((text.length : Int) ≤ m → splitIntoChunks text m = some [text]) := by
  constructor
  · obtain ⟨cs, he, _, _, hn⟩ :=
      splitIntoChunksF_spec (text.length + 1) text m hm (Nat.lt_succ_self _)
    exact ⟨cs, he, hn hne⟩
  · intro hle
    simp [splitIntoChunks, splitIntoChunksF, hle]

/-- Witness for C8 at `text = "ab"`, `maxChunkSize = 1`. -/
theorem C8_witness :
    (1 : Int) ≤ 1 ∧ S "ab" ≠ [] ∧
    ((∃ chunks, splitIntoChunks (S "ab") 1 = some chunks ∧
        ∀ c ∈ chunks, c ≠ []) ∧
     ((S "ab").length ≤ (1 : Int) → splitIntoChunks (S "ab") 1 = some [S "ab"])) :=
  ⟨by norm_num, by simp [S], C8_nonempty_chunks (S "ab") 1 (by norm_num) (by simp [S])⟩

/-- C9 — checkpoint rule of the segment loop: a pause happens before
segment `i` exactly when `i` is a positive multiple of 5 below the
segment count, reporting `totalChunks - i` remaining; an 8-segment run
pauses exactly once, before index 5, reporting 3 remaining. -/
theorem C9_checkpoint_rule :
    (∀ n i r, (i, r) ∈ checkpointPauses n ↔
      (0 < i ∧ i % 5 = 0 ∧ i < n ∧ r = n - i)) ∧
    checkpointPauses 8 = [(5, 3)] := by
  constructor
  · intro n i r
    constructor
    · intro h
      simp only [checkpointPauses, List.mem_filterMap, List.mem_range] at h
      obtain ⟨a, ha, hval⟩ := h
      by_cases hcond : 0 < a ∧ a % 5 = 0 ∧ a < n
      · rw [if_pos hcond] at hval
        obtain ⟨rfl, rfl⟩ := Prod.mk.injEq .. ▸ Option.some.injEq .. ▸ hval
        exact ⟨hcond.1, hcond.2.1, hcond.2.2, rfl⟩
      · rw [if_neg hcond] at hval
        exact absurd hval (by simp)
    · rintro ⟨h1, h2, h3, rfl⟩
      simp only [checkpointPauses, List.mem_filterMap, List.mem_range]
      exact ⟨i, h3, by rw [if_pos ⟨h1, h2, h3⟩]⟩
  · rfl

/-- C2 — Reconciler totality: `parseStreamingJSON` is a total function of
the buffer (the embedding returns a `ReconcileResult` for every string),
and whenever the strict/repair `JSON.parse` tier fails the result is
exactly the regex fallback's — the failure is absorbed, never propagated. -/
theorem C2_parse_failure_degrades (text : List Char)
    (h : jsonParse (reconcilerParseTarget text) = none) :
    parseStreamingJSON text = regexFallback text := by
  simp [parseStreamingJSON, h]

/-- Witness for C2 on the non-JSON buffer `"nonsense"`. -/
theorem C2_witness :
    jsonParse (reconcilerParseTarget (S "nonsense")) = none ∧
    parseStreamingJSON (S "nonsense") = regexFallback (S "nonsense") :=
  ⟨rfl, C2_parse_failure_degrades (S "nonsense") rfl⟩

/-- C4 — repair-parse rule: when the trimmed buffer does not end with `]`
and the repaired text (trailing comma/whitespace stripped, `]` appended)
parses as an array, all elements but the last are finalized and the last
is the in-flight item; with zero elements both lists are empty/absent
(`dropLast`/`getLast?` cover both cases). -/
theorem C4_repair_parse (text : List Char) (items : List Json)
    (h1 : (jsTrim text).getLast? ≠ some ']')
    (h2 : jsonParse (stripTrailingCommaWs (jsTrim text) ++ [']']) =
      some (Json.arr items)) :
    parseStreamingJSON text = ⟨items.dropLast, items.getLast?⟩ := by
  have htarget : reconcilerParseTarget text =
      stripTrailingCommaWs (jsTrim text) ++ [']'] := by
    simp [reconcilerParseTarget, h1]
  rcases items with _ | ⟨x, xs⟩
  · simp [parseStreamingJSON, htarget, h2, h1]
  · simp [parseStreamingJSON, htarget, h2, h1]

/-- Witness for C4 on the buffer `"[1,2,"`. -/
theorem C4_witness :
    (jsTrim (S "[1,2,")).getLast? ≠ some ']' ∧
    parseStreamingJSON (S "[1,2,") =
      ⟨[Json.num ['1']], some (Json.num ['2'])⟩ :=
  ⟨by decide, C4_repair_parse (S "[1,2,") [Json.num ['1'], Json.num ['2']]
    (by decide) rfl⟩

/-- C5 — terminal case: when the trimmed buffer ends with `]` and parses
as a complete array of valid two-string-field items, every element is
finalized (the finalized list is the whole array) and there is no
in-flight item. -/
theorem C5_terminal_case (text : List Char) (items : List Json)
    (h1 : (jsTrim text).getLast? = some ']')
    (h2 : jsonParse (jsTrim text) = some (Json.arr items))
    (h3 : ∀ it ∈ items, validSummaryItem it = true) :
    parseStreamingJSON text = ⟨items, none⟩ := by
  have htarget : reconcilerParseTarget text = jsTrim text := by
    simp [reconcilerParseTarget, h1]
  simp [parseStreamingJSON, htarget, h2, h1]

/-- Witness for C5 on a complete one-item array. -/
theorem C5_witness :
    (jsTrim (S "[\x7b\"summary_item_text\":\"a\",\"origin_text_reference\":\"b\"\x7d]")).getLast? = some ']' ∧
    (∀ it ∈ [mkItem (S "a") (S "b")], validSummaryItem it = true) ∧
    parseStreamingJSON (S "[\x7b\"summary_item_text\":\"a\",\"origin_text_reference\":\"b\"\x7d]") =
      ⟨[mkItem (S "a") (S "b")], none⟩ :=
  ⟨by decide, by decide,
   C5_terminal_case _ [mkItem (S "a") (S "b")] (by decide) rfl (by decide)⟩

/-- C6 — regex fallback: when the parse tier fails, every match of the
complete-object pattern but the last is finalized and the last becomes
the in-flight item; with zero matches, a non-empty open first-field
capture becomes the in-flight item with an empty second field. -/
theorem C6_regex_fallback (text : List Char)
    (h : jsonParse (reconcilerParseTarget text) = none) :
    (scanComplete text ≠ [] →
      parseStreamingJSON text =
        ⟨((scanComplete text).dropLast).map (fun p => mkItem p.1 p.2),
         ((scanComplete text).getLast?).map (fun p => mkItem p.1 p.2)⟩) ∧
    (scanComplete text = [] →
      ∀ cap, findOpenCapture text = some cap → cap ≠ [] →
        parseStreamingJSON text = ⟨[], some (mkItem cap [])⟩) := by
  have hp : parseStreamingJSON text = regexFallback text := by
    simp [parseStreamingJSON, h]
  constructor
  · intro hne
    rw [hp]
    simp [regexFallback, hne]
  · intro he cap hcap hne
    rw [hp]
    simp [regexFallback, he, hcap, hne]

/-- Witness for C6 on a buffer holding one complete object followed by a
mid-string object: the parse tier fails, the single match is demoted to
the in-flight item. -/
theorem C6_witness :
    jsonParse (reconcilerParseTarget sampleFallbackBuffer) = none ∧
    scanComplete sampleFallbackBuffer ≠ [] ∧
    parseStreamingJSON sampleFallbackBuffer =
      ⟨[], some (mkItem (S "a") (S "b"))⟩ :=
  ⟨rfl, by decide, (C6_regex_fallback sampleFallbackBuffer rfl).1 (by decide)⟩

/-- C10 — in the fallback tier an open first-field string with zero value
characters yields nothing: no finalized item and no in-flight item. -/
theorem C10_open_quote_no_chars (text : List Char)
    (h1 : jsonParse (reconcilerParseTarget text) = none)
    (h2 : scanComplete text = [])
    (h3 : findOpenCapture text = some []) :
    parseStreamingJSON text = ⟨[], none⟩ := by
  simp [parseStreamingJSON, h1, regexFallback, h2, h3]

/-- Witness for C10 on the buffer that ends right after the opening quote
of the first field. -/
theorem C10_witness :
    jsonParse (reconcilerParseTarget (S "[\x7b\"summary_item_text\":\"")) = none ∧
    scanComplete (S "[\x7b\"summary_item_text\":\"") = [] ∧
    findOpenCapture (S "[\x7b\"summary_item_text\":\"") = some [] ∧
    parseStreamingJSON (S "[\x7b\"summary_item_text\":\"") = ⟨[], none⟩ :=
  ⟨rfl, by decide, by decide,
   C10_open_quote_no_chars (S "[\x7b\"summary_item_text\":\"") rfl (by decide) (by decide)⟩

/-- C1 counterexample — `parseStreamingJSON` is not monotone under buffer
extension: the complete buffer `["a"]` finalizes one item, but its
extension `["a"],` fails every parse tier and finalizes nothing, so the
earlier finalized sequence is not a prefix of the later one. -/
theorem C1_counterexample :
    S "[\"a\"]" <+: S "[\"a\"]," ∧
    ¬ ((parseStreamingJSON (S "[\"a\"]")).completeItems <+:
       (parseStreamingJSON (S "[\"a\"],")).completeItems) := by
  constructor
  · exact ⟨[','], rfl⟩
  · intro h
    have h1 : (parseStreamingJSON (S "[\"a\"]")).completeItems =
        [Json.str ['a']] := rfl
    have h2 : (parseStreamingJSON (S "[\"a\"],")).completeItems = [] := rfl
    rw [h1, h2] at h
    obtain ⟨t, ht⟩ := h
    simp at ht

/-- C1 amended — monotonicity of the finalized view is maintained by the
caller's merge rule, not by `parseStreamingJSON` alone: the `chunk`
handler appends exactly the reconciler's finalized items beyond
`lastCompleteCount`, so the running collection before a call is always a
prefix of the running collection after it — no finalized item is removed,
reordered or mutated. -/
theorem C1_merge_monotone (allKeyPoints : List Json) (lastCompleteCount : Nat)
    (buffer : List Char) :
    allKeyPoints <+:
      (mergeStep allKeyPoints lastCompleteCount
        (parseStreamingJSON buffer).completeItems).1 := by
  unfold mergeStep
  split
  · exact ⟨_, rfl⟩
  · exact ⟨[], List.append_nil _⟩
